import Mathlib

/-!
# Verification of the RebbleOS application manager (`src/rcore/appmanager.c`)

This file is a shallow embedding, in Lean 4, of the application-manager
module of a small smartwatch OS.  The embedding follows the C source
function by function:

* the manifest (a singly-linked intrusive list of `App` records in C) is
  modelled as a `List App`;
* the shared application arena (`app_stack_heap`, a union of a byte buffer
  and a word buffer) is modelled as a byte memory `Mem := Nat → Nat`, with
  little-endian 32-bit word views `rdW`/`wrW` reproducing the
  `word_buf` accesses of the source;
* the flash driver (`flash_load_app_header`, `flash_load_app`) is an
  external collaborator and is modelled as an oracle `Nat → ApplicationHeader`
  for headers plus an image byte function for the stored binary;
* FreeRTOS queues are modelled as bounded lists: `xQueueSendToBack` appends
  when the queue holds fewer items than its capacity and otherwise leaves
  the queue unchanged (timeout expired);
* the compile-time constants `MAX_APP_MEMORY_SIZE` (the arena size) and
  `MAX_APP_STACK_SIZE` (stack size in words) are defined in headers outside
  this translation unit, so they are carried as explicit parameters;
* machine-integer arithmetic that can wrap in C (`uint32_t` subtraction,
  32-bit pointer arithmetic) is made explicit with `% 2^32` / `Int.emod`.

Heap allocation is assumed to succeed in the model (the C `calloc` failure
path feeds `NULL` into `_appmanager_add_to_manifest`; that `NULL` argument
is modelled by an `Option App` of value `none`).
-/

/-- Application type tags, from `APP_TYPE_SYSTEM` / `APP_TYPE_FACE`.
(`watch_face` in the specification is `APP_TYPE_FACE` in the code.) -/
inductive AppType where
  | system : AppType
  | face : AppType
deriving DecidableEq

/-- Entry points of the three built-in (internal) applications.  In C these
are function pointers to external functions; here they are opaque tags. -/
inductive EntryPoint where
  | systemMain : EntryPoint
  | simpleMain : EntryPoint
  | nivzMain : EntryPoint
deriving DecidableEq

/-- The `App` record of `appmanager.h`, without the intrusive `next` pointer
(list structure is carried by `List App`) and without the cached `header`
pointer (always `NULL` at manifest-construction time in the source). -/
structure App where
  name : String
  type : AppType
  main : Option EntryPoint
  is_internal : Bool
  slot_id : Nat
deriving DecidableEq

/-- The on-flash `ApplicationHeader`.  Fields are the ones the C code
reads; `magic` is the 8-byte `header` character array. -/
structure ApplicationHeader where
  magic : List Nat
  sdk_major : Nat
  sdk_minor : Nat
  app_major : Nat
  app_minor : Nat
  app_size : Nat
  offset : Nat
  crc : Nat
  name : String
  company : String
  icon_resource_id : Nat
  sym_table_addr : Nat
  flags : Nat
  reloc_entries_count : Nat
  virtual_size : Nat
deriving DecidableEq

/-- `_appmanager_create_app`: build a fresh record.  The C function returns
`NULL` when `calloc` fails; allocation is assumed to succeed here. -/
def appmanager_create_app (name : String) (type : AppType)
    (entry_point : Option EntryPoint) (is_internal : Bool) (slot_id : Nat) : App :=
  { name := name, type := type, main := entry_point,
    is_internal := is_internal, slot_id := slot_id }

/-- `_appmanager_add_to_manifest`: if the head is `NULL` the head becomes
the argument; otherwise the last node's `next` is pointed at the argument.
A `NULL` argument (`none`) therefore leaves the list unchanged: an empty
head stays `NULL`, and re-writing the last node's `next` with `NULL` is a
no-op. -/
def appmanager_add_to_manifest (manifest : List App) (app : Option App) : List App :=
  match app with
  | none => manifest
  | some a => manifest ++ [a]

/-- `appmanager_get_app`: walk the manifest and return the first node with
`strncmp(node->name, app_name, strlen(node->name)) == 0`, i.e. the first
record whose stored name is a character-wise prefix of the query; `NULL`
(`none`) when no node matches. -/
def appmanager_get_app (manifest : List App) (app_name : String) : Option App :=
  manifest.find? (fun node => node.name.data.isPrefixOf app_name.data)

/-- `app_manager_get_apps_head`: the head of the manifest list. -/
def app_manager_get_apps_head (manifest : List App) : Option App :=
  manifest.head?

/-- The magic check of `_appmanager_flash_load_app_manifest`:
`strncmp(header.header, "PBLAPP", 6) == 0`, i.e. the first six bytes of the
header's character array are the ASCII codes of `P B L A P P`. -/
def magicOk (h : ApplicationHeader) : Bool :=
  h.magic.take 6 = [0x50, 0x42, 0x4C, 0x41, 0x50, 0x50]

/-- The record inserted by the flash scanner for a slot that passed the
magic check: name from the header, type `APP_TYPE_FACE`, no entry point
(`main` is set at load time), not internal, `slot_id = i`. -/
def scanApp (h : ApplicationHeader) (i : Nat) : App :=
  appmanager_create_app h.name AppType.face none false i

/-- `_appmanager_flash_load_app_manifest`: probe slots `0, 1, ..., 31`
(the loop bound is the literal 32); for each slot whose header passes the
magic check, append a `scanApp` record to the manifest. -/
def appmanager_flash_load_app_manifest (flash : Nat → ApplicationHeader)
    (manifest : List App) : List App :=
  (List.range 32).foldl
    (fun acc i =>
      if magicOk (flash i) then appmanager_add_to_manifest acc (some (scanApp (flash i) i))
      else acc)
    manifest

/-- The three built-in records added by `appmanager_init`, in source order. -/
def systemApp : App := appmanager_create_app "System" AppType.system (some EntryPoint.systemMain) true 0

/-- Built-in record number two. -/
def simpleApp : App := appmanager_create_app "Simple" AppType.face (some EntryPoint.simpleMain) true 0

/-- Built-in record number three. -/
def nivzApp : App := appmanager_create_app "NiVZ" AppType.face (some EntryPoint.nivzMain) true 0

/-- The manifest produced by `appmanager_init`: the three built-ins are
added first (System, Simple, NiVZ), then the flash scanner runs. -/
def initManifest (flash : Nat → ApplicationHeader) : List App :=
  appmanager_flash_load_app_manifest flash
    (appmanager_add_to_manifest
      (appmanager_add_to_manifest
        (appmanager_add_to_manifest [] (some systemApp))
        (some simpleApp))
      (some nivzApp))

/-! ## The application arena

`app_stack_heap` is a statically allocated union of `byte_buf` (bytes) and
`word_buf` (32-bit words).  It is modelled as a total byte memory indexed
by byte offset; word accesses are little-endian reads/writes of four
consecutive bytes, truncating stored values to 32 bits as the hardware
does. -/

/-- The arena: byte offset to byte value. -/
def Mem : Type := Nat → Nat

/-- `word_buf[k]`: little-endian 32-bit read of bytes `4k .. 4k+3`. -/
def rdW (m : Mem) (k : Nat) : Nat :=
  m (4 * k) + 256 * m (4 * k + 1) + 65536 * m (4 * k + 2) + 16777216 * m (4 * k + 3)

/-- `word_buf[k] = v`: little-endian 32-bit write of `v` (truncated mod
`2^32`) to bytes `4k .. 4k+3`. -/
def wrW (m : Mem) (k v : Nat) : Mem := fun j =>
  if j = 4 * k then v % 256
  else if j = 4 * k + 1 then v / 256 % 256
  else if j = 4 * k + 2 then v / 65536 % 256
  else if j = 4 * k + 3 then v / 16777216 % 256
  else m j

/-- `flash_load_app(slot, byte_buf, n)`: overwrite the first `n` bytes of
the arena with the flash image; bytes past `n` keep their previous
(arbitrary, left over) contents. -/
def loadImage (img : Mem) (n : Nat) (m : Mem) : Mem := fun j =>
  if j < n then img j else m j

/-- `memset(&byte_buf[start], 0, len)`. -/
def memset0 (m : Mem) (start len : Nat) : Mem := fun j =>
  if start ≤ j ∧ j < start + len then 0 else m j

/-- A C `uint32_t` (or 32-bit pointer) value of a possibly negative
integer expression: the representative of `x` modulo `2^32`. -/
def u32 (x : Int) : Nat := (x % (2 ^ 32 : Int)).toNat

/-- One iteration of the relocation loop, for entry index `i`:

    uint32_t existing = app_stack_heap.word_buf[got[i]/4];
    existing /= 4;
    uintptr_t wb = (uintptr_t)(app_stack_heap.word_buf + existing);
    app_stack_heap.word_buf[got[i]/4] = wb;

where `got = &app_stack_heap.word_buf[header.app_size / 4]`, so
`got[i]` is the word at word index `app_size/4 + i`, and the pointer
arithmetic makes `wb = base + 4*existing` truncated to 32 bits
(`base` is the numeric address of `app_stack_heap`). -/
def relocStep (base app_size : Nat) (m : Mem) (i : Nat) : Mem :=
  let r := rdW m (app_size / 4 + i)
  let existing := rdW m (r / 4) / 4
  wrW m (r / 4) ((base + 4 * existing) % 2 ^ 32)

/-- The relocation loop `for (i = 0; i < count; i++)`, run for the first
`n` iterations: entry 0 is processed first.  (The `if reloc_entries_count
> 0` guard of the source is redundant: zero iterations happen either
way.) -/
def relocRun (base app_size : Nat) (m : Mem) : Nat → Mem
  | 0 => m
  | n + 1 => relocStep base app_size (relocRun base app_size m n) n

/-- Steps 2–3 of the external load: copy `app_size + reloc_entries_count*4`
bytes of image from flash, then run the relocation loop over all
`reloc_entries_count` entries. -/
def afterReloc (base : Nat) (hdr : ApplicationHeader) (img : Mem) (m0 : Mem) : Mem :=
  relocRun base hdr.app_size
    (loadImage img (hdr.app_size + hdr.reloc_entries_count * 4) m0)
    hdr.reloc_entries_count

/-- Step 4, zeroing the bss:

    uint32_t bss_size = header.virtual_size - header.app_size;
    memset(&app_stack_heap.byte_buf[header.app_size], 0, bss_size);

the subtraction is `uint32_t` arithmetic and wraps. -/
def afterBss (base : Nat) (hdr : ApplicationHeader) (img : Mem) (m0 : Mem) : Mem :=
  memset0 (afterReloc base hdr img m0) hdr.app_size
    (u32 ((hdr.virtual_size : Int) - (hdr.app_size : Int)))

/-- Step 5, installing the host symbol-table address byte by byte at byte
offsets `sym_table_addr .. sym_table_addr+3` (little-endian). -/
def symInstall (m : Mem) (sym_table_addr sym : Nat) : Mem := fun j =>
  if j = sym_table_addr then sym % 256
  else if j = sym_table_addr + 1 then sym / 256 % 256
  else if j = sym_table_addr + 2 then sym / 65536 % 256
  else if j = sym_table_addr + 3 then sym / 16777216 % 256
  else m j

/-- Result of the external (non-internal) load path of
`_appmanager_app_thread`.  The source computes the partition and then
unconditionally calls `appHeapInit` and `xTaskCreateStatic`; there is no
failure branch, so `task_spawned` records that a task creation is always
reached. -/
structure LoadOut where
  mem : Mem
  heap_size : Nat
  heap_base_off : Nat
  stack_entry_word : Nat
  stack_size : Nat
  entry_off : Nat
  task_spawned : Bool

/-- The whole non-internal branch of `_appmanager_app_thread` for one
start request: load image, relocate, zero bss, install the symbol table
pointer, and compute the partition

    uint32_t stack_size = MAX_APP_STACK_SIZE;
    uint32_t *stack_entry = &word_buf[(MAX_APP_MEMORY_SIZE / 4) - stack_size];
    uint32_t heap_size = ((MAX_APP_MEMORY_SIZE) - total_app_size) - (stack_size * 4);

with `total_app_size = header.virtual_size`; all three expressions use
wrapping `uint32_t` arithmetic.  `arenaSize` stands for
`MAX_APP_MEMORY_SIZE` and `stackWords` for `MAX_APP_STACK_SIZE`, both
compile-time constants defined outside this file. -/
def loadExternal (arenaSize stackWords base sym : Nat)
    (hdr : ApplicationHeader) (img : Mem) (m0 : Mem) : LoadOut :=
  { mem := symInstall (afterBss base hdr img m0) hdr.sym_table_addr sym
    heap_size := u32 ((arenaSize : Int) - (hdr.virtual_size : Int) - 4 * (stackWords : Int))
    heap_base_off := hdr.virtual_size
    stack_entry_word := arenaSize / 4 - stackWords
    stack_size := stackWords
    entry_off := hdr.offset
    task_spawned := true }

/-! ## Queues and the public control surface

`_app_message_queue` has capacity 5 and `_app_thread_queue` capacity 1
(`xQueueCreate(5, ...)` / `xQueueCreate(1, ...)`).  `xQueueSendToBack`
appends when there is room and returns success; on a full queue it gives
up after its tick timeout, leaving the queue unchanged, and returns
failure.  Both call sites in `appmanager_app_start` /
`appmanager_app_quit` discard that return value. -/

/-- The messages carried by the two queues (`AppMessage`): the
`message_type_id` constants `APP_QUIT`, `APP_BUTTON`, `APP_TICK`, and the
start request sent by `appmanager_app_start` whose payload is the app
name. -/
inductive AMsg where
  | quit : AMsg
  | button : Nat → AMsg
  | tick : Nat → AMsg
  | start : String → AMsg
deriving DecidableEq

/-- `xQueueSendToBack` on a queue of capacity `cap`: the queue after the
call and whether the item was enqueued. -/
def qsend (cap : Nat) (q : List AMsg) (msg : AMsg) : List AMsg × Bool :=
  if q.length < cap then (q ++ [msg], true) else (q, false)

/-- `appmanager_app_quit`: send `APP_QUIT` to the event queue
(capacity 5, 10-tick timeout), discarding the send result. -/
def appmanager_app_quit (evq : List AMsg) : List AMsg :=
  (qsend 5 evq AMsg.quit).1

/-- `appmanager_app_start`: first call `appmanager_app_quit()`, then send
the start request to the thread queue (capacity 1, 100-tick timeout),
discarding the send result.  The function returns only the two queues:
the C function is `void` and surfaces no error. -/
def appmanager_app_start (name : String) (evq thq : List AMsg) :
    List AMsg × List AMsg :=
  let evq1 := appmanager_app_quit evq
  (evq1, (qsend 1 thq (AMsg.start name)).1)

/-! ## One iteration of the supervisor loop

`_appmanager_app_thread` blocks on the thread queue, then: resets the
event queue, asserts the manifest is non-empty, looks the name up, and
either `return`s (lookup failed — the task function exits and the
supervisor is gone), or records the app as running and spawns it (external
apps via `loadExternal`, internal apps with the arena used as heap+stack
only).  The outcome of one iteration is captured by `SupOutcome`. -/

/-- What one iteration of the supervisor loop body does with a received
start request. -/
inductive SupOutcome where
  /-- `assert(!"No Apps")`: the manifest was empty. -/
  | assertNoApps : SupOutcome
  /-- `if (app == NULL) return;` — the supervisor task function returns,
  so the loop is left and no further request is ever received. -/
  | taskReturn : SupOutcome
  /-- External app: full load performed, task spawned, loop continues. -/
  | spawnedExternal : App → LoadOut → SupOutcome
  /-- Internal app: `appHeapInit(arenaSize - stackWords*4, byte_buf)` and
  task spawn from the compiled-in entry point; loop continues. -/
  | spawnedInternal : App → Nat → SupOutcome

/-- The body of one `for(;;)` iteration of `_appmanager_app_thread`, after
`xQueueReceive` has delivered the start request `name`.  Parameters:
`arenaSize`/`stackWords` are the compile-time constants, `base` the
numeric address of `app_stack_heap`, `sym` the address of the host symbol
table, `flash` the header oracle, `img` the slot image oracle, `m0` the
arena contents left over from the previous app. -/
def supStep (arenaSize stackWords base sym : Nat)
    (flash : Nat → ApplicationHeader) (img : Nat → Mem) (m0 : Mem)
    (manifest : List App) (name : String) : SupOutcome :=
  if manifest = [] then SupOutcome.assertNoApps
  else
    match appmanager_get_app manifest name with
    | none => SupOutcome.taskReturn
    | some app =>
        if app.is_internal then
          SupOutcome.spawnedInternal app (arenaSize - stackWords * 4)
        else
          SupOutcome.spawnedExternal app
            (loadExternal arenaSize stackWords base sym (flash app.slot_id)
              (img app.slot_id) m0)

/-! ## Concrete fixtures

Concrete headers, records, flash contents and arena states used to
instantiate the theorems below at specific inputs. -/

/-- The 8-byte magic of a valid slot: ASCII `P B L A P P` then padding. -/
def pblappMagic : List Nat := [0x50, 0x42, 0x4C, 0x41, 0x50, 0x50, 0, 0]

/-- A header that fails the magic check (an empty flash slot). -/
def badHdr : ApplicationHeader :=
  { magic := [0, 0, 0, 0, 0, 0, 0, 0], sdk_major := 0, sdk_minor := 0,
    app_major := 0, app_minor := 0, app_size := 0, offset := 0, crc := 0,
    name := "", company := "", icon_resource_id := 0, sym_table_addr := 0,
    flags := 0, reloc_entries_count := 0, virtual_size := 0 }

/-- A valid header whose application name extends the built-in name
`System`. -/
def hdrSX : ApplicationHeader := { badHdr with magic := pblappMagic, name := "SystemX" }

/-- A valid header whose `virtual_size` (2000 bytes) exceeds a small
arena. -/
def hdrBig : ApplicationHeader :=
  { badHdr with magic := pblappMagic, name := "Face", virtual_size := 2000 }

/-- A tiny header with 4 bytes of code and 4 bytes of bss. -/
def hdrC6 : ApplicationHeader := { badHdr with app_size := 4, virtual_size := 8 }

/-- Flash contents holding the `SystemX` app in slot 0 and nothing else. -/
def flashSX : Nat → ApplicationHeader := fun i => if i = 0 then hdrSX else badHdr

/-- The manifest record the scanner builds for `hdrBig` in slot 2. -/
def faceBig : App := scanApp hdrBig 2

/-- A record whose one-character name `S` is a prefix of `System`. -/
def sApp : App := appmanager_create_app "S" AppType.face none false 7

/-- An arena whose word 0 holds 5 (a byte offset that is not a multiple
of 4) and whose other bytes are zero, so that relocation entry 0 (the
word at byte offset 4, of value 0) names word 0 as its target. -/
def memV5 : Mem := fun j => if j = 0 then 5 else 0

/-! ## Helper lemmas -/

/-- Character-list prefix comparison is reflexive. -/
theorem isPrefixOf_refl_charlist : ∀ l : List Char, l.isPrefixOf l = true := by
  intro l
  induction l with
  | nil => rfl
  | cons c t ih => simp [List.isPrefixOf, ih]

/-- `find?` returns the head of the suffix whenever the predicate holds
there and fails on every earlier element. -/
theorem find?_first_match {α : Type} (p : α → Bool) :
    ∀ (l1 : List α) (a : α) (l2 : List α), p a = true → (∀ b ∈ l1, p b = false) →
      (l1 ++ a :: l2).find? p = some a := by
  intro l1
  induction l1 with
  | nil =>
      intro a l2 ha _
      simpa using List.find?_cons_of_pos l2 ha
  | cons b t ih =>
      intro a l2 ha hall
      have hb : p b = false := hall b (List.mem_cons_self b t)
      rw [List.cons_append, List.find?_cons_of_neg _ (by simp [hb])]
      exact ih a l2 ha (fun x hx => hall x (List.mem_cons_of_mem b hx))

/-- Unfolding of the flash-scan fold: the scan appends, in slot order, one
record per probed slot whose header passes the magic check. -/
theorem flash_scan_foldl (flash : Nat → ApplicationHeader) :
    ∀ (l : List Nat) (m : List App),
      l.foldl
          (fun acc i =>
            if magicOk (flash i) then appmanager_add_to_manifest acc (some (scanApp (flash i) i))
            else acc) m
        = m ++ l.filterMap
            (fun i => if magicOk (flash i) then some (scanApp (flash i) i) else none) := by
  intro l
  induction l with
  | nil => intro m; simp
  | cons i t ih =>
      intro m
      by_cases h : magicOk (flash i) = true
      · rw [List.foldl_cons, if_pos h, ih, List.filterMap_cons, if_pos h]
        simp [appmanager_add_to_manifest]
      · rw [List.foldl_cons, if_neg h, ih, List.filterMap_cons, if_neg h]

/-- The flash scanner equals its per-slot characterization. -/
theorem flash_scan_eq (flash : Nat → ApplicationHeader) (m : List App) :
    appmanager_flash_load_app_manifest flash m
      = m ++ (List.range 32).filterMap
          (fun i => if magicOk (flash i) then some (scanApp (flash i) i) else none) :=
  flash_scan_foldl flash (List.range 32) m

/-- Any record produced by the scanner characterization is external. -/
theorem scan_filterMap_internal_false (flash : Nat → ApplicationHeader) (b : App)
    (hb : b ∈ (List.range 32).filterMap
        (fun i => if magicOk (flash i) then some (scanApp (flash i) i) else none)) :
    b.is_internal = false := by
  rw [List.mem_filterMap] at hb
  obtain ⟨i, -, hi⟩ := hb
  by_cases h : magicOk (flash i) = true
  · rw [if_pos h, Option.some.injEq] at hi
    rw [← hi]
    rfl
  · rw [if_neg h] at hi
    exact absurd hi (Option.noConfusion)

/-- Reading back the word just written returns the written value
truncated to 32 bits. -/
theorem rdW_wrW_same (m : Mem) (k v : Nat) : rdW (wrW m k v) k = v % 2 ^ 32 := by
  have h0 : wrW m k v (4 * k) = v % 256 := by
    simp only [wrW]
    split_ifs <;> omega
  have h1 : wrW m k v (4 * k + 1) = v / 256 % 256 := by
    simp only [wrW]
    split_ifs <;> omega
  have h2 : wrW m k v (4 * k + 2) = v / 65536 % 256 := by
    simp only [wrW]
    split_ifs <;> omega
  have h3 : wrW m k v (4 * k + 3) = v / 16777216 % 256 := by
    simp only [wrW]
    split_ifs <;> omega
  simp only [rdW]
  rw [h0, h1, h2, h3]
  omega

/-! ## Claim theorems -/

/-- C10: `_appmanager_add_to_manifest` always appends at the tail: the
previous manifest survives unchanged as an initial segment (so every
previously inserted record and their relative order are preserved), a
`some` record lands as the new last element, and inserting the `NULL`
record produced by a failed allocation in `_appmanager_create_app`
leaves the manifest exactly unchanged. -/
theorem add_to_manifest_appends_tail (m : List App) (x : Option App) :
    (∃ t, appmanager_add_to_manifest m x = m ++ t)
    ∧ appmanager_add_to_manifest m none = m
    ∧ ∀ a : App, appmanager_add_to_manifest m (some a) = m ++ [a] := by
  refine ⟨?_, rfl, fun a => rfl⟩
  cases x with
  | none => exact ⟨[], by simp [appmanager_add_to_manifest]⟩
  | some a => exact ⟨[a], rfl⟩

/-- C4: `appmanager_get_app` returns `none` exactly when no stored name
is a prefix of the query, returns the first record (in insertion order)
whose stored name is a prefix of the query, and in particular, on a
manifest holding the records named `S` and `System` in that order, the
query `System` returns the `S` record. -/
theorem get_app_first_prefix_match (m : List App) (q : String) :
    (appmanager_get_app m q = none ↔ ∀ a ∈ m, a.name.data.isPrefixOf q.data = false)
    ∧ (∀ l1 a l2, m = l1 ++ a :: l2 → a.name.data.isPrefixOf q.data = true →
        (∀ b ∈ l1, b.name.data.isPrefixOf q.data = false) →
        appmanager_get_app m q = some a)
    ∧ appmanager_get_app [sApp, systemApp] "System" = some sApp := by
  refine ⟨?_, ?_, by decide⟩
  · rw [appmanager_get_app, List.find?_eq_none]
    constructor
    · intro h a ha
      exact Bool.eq_false_iff.mpr (h a ha)
    · intro h a ha
      simp [h a ha]
  · intro l1 a l2 hm ha hl1
    rw [hm]
    exact find?_first_match _ l1 a l2 ha hl1

/-- Claim C4 witness: the general lookup theorem instantiated on the
two-record manifest `[Simple, NiVZ]` queried with `NiVZ`. -/
theorem get_app_first_prefix_match_witness :
    appmanager_get_app [simpleApp, nivzApp] "NiVZ" = some nivzApp :=
  (get_app_first_prefix_match [simpleApp, nivzApp] "NiVZ").2.1
    [simpleApp] nivzApp [] rfl (by decide) (by decide)

/-- C9: `appmanager_app_start` first runs `appmanager_app_quit` (posting
`APP_QUIT` to the event queue) and only then attempts the start request on
the thread queue, whose send outcome is discarded: the resulting event
queue always equals the one produced by `appmanager_app_quit` alone, the
Quit is appended whenever the event queue has room, and when the thread
queue is already full (capacity 1) the start request is dropped with the
thread queue unchanged while the Quit stays posted; the function returns
only the two queues, surfacing no error. -/
theorem app_start_posts_quit_first (name : String) (evq thq : List AMsg) :
    (appmanager_app_start name evq thq).1 = appmanager_app_quit evq
    ∧ (evq.length < 5 → (appmanager_app_start name evq thq).1 = evq ++ [AMsg.quit])
    ∧ (1 ≤ thq.length → (appmanager_app_start name evq thq).2 = thq)
    ∧ (thq.length < 1 → (appmanager_app_start name evq thq).2 = thq ++ [AMsg.start name]) := by
  refine ⟨rfl, ?_, ?_, ?_⟩
  · intro h
    simp [appmanager_app_start, appmanager_app_quit, qsend, h]
  · intro h
    simp [appmanager_app_start, qsend, Nat.not_lt.mpr h]
  · intro h
    simp [appmanager_app_start, qsend, h]

/-- Claim C9 witness: starting `System` with an empty event queue and a
full thread queue posts the Quit and leaves the thread queue unchanged. -/
theorem app_start_posts_quit_first_witness :
    (appmanager_app_start "System" [] [AMsg.start "X"]).1 = [] ++ [AMsg.quit]
    ∧ (appmanager_app_start "System" [] [AMsg.start "X"]).2 = [AMsg.start "X"] :=
  ⟨(app_start_posts_quit_first "System" [] [AMsg.start "X"]).2.1 (by decide),
   (app_start_posts_quit_first "System" [] [AMsg.start "X"]).2.2.1 (by decide)⟩

/-- C2 (code divergence): when the manifest is non-empty and no record
matches the requested name, the supervisor loop body executes
`if (app == NULL) return;` — the outcome is `taskReturn`, i.e. the
supervisor task function exits its receive loop for good instead of
going back to blocking on the thread queue. -/
theorem supervisor_not_found_exits_task (arenaSize stackWords base sym : Nat)
    (flash : Nat → ApplicationHeader) (img : Nat → Mem) (m0 : Mem)
    (manifest : List App) (name : String)
    (hne : manifest ≠ [])
    (hnf : appmanager_get_app manifest name = none) :
    supStep arenaSize stackWords base sym flash img m0 manifest name
      = SupOutcome.taskReturn := by
  rw [supStep, if_neg hne, hnf]

/-- Claim C2 witness: with only the three built-ins in the manifest, a
start request for the unknown name `Unknown` makes the supervisor loop
body return out of the task function. -/
theorem supervisor_not_found_exits_task_witness :
    supStep 0 0 0 0 (fun _ => badHdr) (fun _ => (fun _ => 0)) (fun _ => 0)
        [systemApp, simpleApp, nivzApp] "Unknown"
      = SupOutcome.taskReturn :=
  supervisor_not_found_exits_task 0 0 0 0 (fun _ => badHdr) (fun _ => (fun _ => 0)) (fun _ => 0)
    [systemApp, simpleApp, nivzApp] "Unknown" (by decide) (by decide)

/-- C8: cold boot with only built-ins — when every one of the 32 probed
slots fails the magic check, `appmanager_init` leaves exactly the three
built-in records System, Simple, NiVZ in the manifest, in that insertion
order, and `app_manager_get_apps_head` hands back the System record as
the head of that enumeration. -/
theorem init_cold_boot_builtins (flash : Nat → ApplicationHeader)
    (h : ∀ i, i < 32 → magicOk (flash i) = false) :
    initManifest flash = [systemApp, simpleApp, nivzApp]
    ∧ app_manager_get_apps_head (initManifest flash) = some systemApp := by
  have he : initManifest flash
      = [systemApp, simpleApp, nivzApp] ++ (List.range 32).filterMap
          (fun i => if magicOk (flash i) then some (scanApp (flash i) i) else none) :=
    flash_scan_eq flash [systemApp, simpleApp, nivzApp]
  have hnil : (List.range 32).filterMap
      (fun i => if magicOk (flash i) then some (scanApp (flash i) i) else none) = [] := by
    rw [List.filterMap_eq_nil_iff]
    intro i hi
    rw [List.mem_range] at hi
    simp [h i hi]
  rw [he, hnil]
  exact ⟨rfl, rfl⟩

/-- Claim C8 witness: on flash whose every slot reads back an all-zero
header, initialization yields exactly the three built-ins. -/
theorem init_cold_boot_builtins_witness :
    initManifest (fun _ => badHdr) = [systemApp, simpleApp, nivzApp]
    ∧ app_manager_get_apps_head (initManifest (fun _ => badHdr)) = some systemApp :=
  init_cold_boot_builtins (fun _ => badHdr) (fun _ _ => rfl)

/-- C7: the flash scanner probes exactly the slot indices `0..31`: the
resulting manifest is the old one followed by, per slot index `i < 32` in
order, exactly one record when the slot's first six header bytes read
`PBLAPP` and none otherwise; every inserted record carries
`type = APP_TYPE_FACE` (the watch-face type), `is_internal = false`, a
null entry point and `slot_id = i`; and the scan result depends only on
the headers of slots `0..31`, so slot 32 is never probed (while slot 31
is, being in the probed range). -/
theorem flash_scan_probes_slots_0_to_31 (flash g : Nat → ApplicationHeader) (m : List App) :
    appmanager_flash_load_app_manifest flash m
      = m ++ (List.range 32).filterMap
          (fun i => if magicOk (flash i) then some (scanApp (flash i) i) else none)
    ∧ (∀ hdr i, (scanApp hdr i).type = AppType.face ∧ (scanApp hdr i).is_internal = false
        ∧ (scanApp hdr i).main = none ∧ (scanApp hdr i).slot_id = i)
    ∧ ((∀ i, i < 32 → flash i = g i) →
        appmanager_flash_load_app_manifest flash m = appmanager_flash_load_app_manifest g m) := by
  refine ⟨flash_scan_eq flash m, fun _ _ => ⟨rfl, rfl, rfl, rfl⟩, ?_⟩
  intro hfg
  rw [flash_scan_eq flash m, flash_scan_eq g m]
  congr 1
  apply List.filterMap_congr
  intro i hi
  rw [List.mem_range] at hi
  rw [hfg i hi]

/-- Claim C7 witness: the scan over a flash of all-invalid headers equals
the scan over a flash that differs only at slot indices 32 and above. -/
theorem flash_scan_probes_slots_0_to_31_witness :
    appmanager_flash_load_app_manifest (fun _ => badHdr) []
      = appmanager_flash_load_app_manifest (fun i => if i < 32 then badHdr else hdrSX) [] :=
  (flash_scan_probes_slots_0_to_31 (fun _ => badHdr)
      (fun i => if i < 32 then badHdr else hdrSX) []).2.2
    (fun _ hi => (if_pos hi).symm)

/-- C5 counterexample: a reachable manifest state on which exact-name
lookup does not return the named record.  With flash holding a valid app
named `SystemX` in slot 0, the record scanned from slot 0 is present in
the post-`init` manifest, yet looking up its exact name `SystemX`
returns the built-in `System` record (an earlier record whose name is a
proper prefix), not the `SystemX` record. -/
theorem manifest_exact_name_lookup_fails :
    scanApp hdrSX 0 ∈ initManifest flashSX
    ∧ appmanager_get_app (initManifest flashSX) "SystemX" ≠ some (scanApp hdrSX 0)
    ∧ appmanager_get_app (initManifest flashSX) "SystemX" = some systemApp := by
  refine ⟨by decide, by decide, by decide⟩

/-- C5 (amended): after initialization, for any flash contents, the
manifest contains each record at most once (the list of records has no
duplicates — built-ins are pairwise distinct, scanned records carry
distinct slot ids, and scanned records are never internal while built-ins
are), and lookup by a record's exact name returns that record exactly
when no earlier record's name is a prefix of it: lookup returns the
first record, in insertion order, whose name is a prefix of the query. -/
theorem manifest_nodup_and_first_prefix_lookup (flash : Nat → ApplicationHeader) :
    (initManifest flash).Nodup
    ∧ (∀ l1 r l2, initManifest flash = l1 ++ r :: l2 →
        (∀ b ∈ l1, b.name.data.isPrefixOf r.name.data = false) →
        appmanager_get_app (initManifest flash) r.name = some r) := by
  have he : initManifest flash
      = [systemApp, simpleApp, nivzApp] ++ (List.range 32).filterMap
          (fun i => if magicOk (flash i) then some (scanApp (flash i) i) else none) :=
    flash_scan_eq flash [systemApp, simpleApp, nivzApp]
  constructor
  · rw [he, List.nodup_append]
    refine ⟨by decide, ?_, ?_⟩
    · refine List.Nodup.filterMap ?_ (List.nodup_range 32)
      intro i i' b hb hb'
      have hslot : ∀ j : Nat, ∀ c ∈ (if magicOk (flash j) then some (scanApp (flash j) j) else none),
          c.slot_id = j := by
        intro j c hc
        by_cases h : magicOk (flash j) = true
        · rw [if_pos h] at hc
          rw [Option.mem_def, Option.some.injEq] at hc
          rw [← hc]
          rfl
        · rw [if_neg h] at hc
          exact absurd hc (by simp)
      have hi := hslot i b hb
      have hi' := hslot i' b hb'
      omega
    · intro a ha hb
      have hbext : a.is_internal = false := scan_filterMap_internal_false flash a hb
      have haint : a.is_internal = true := by
        fin_cases ha <;> rfl
      rw [haint] at hbext
      exact Bool.noConfusion hbext
  · intro l1 r l2 hm hl1
    rw [hm]
    exact find?_first_match _ l1 r l2 (isPrefixOf_refl_charlist r.name.data) hl1

/-- Claim C5 witness: on all-invalid flash the manifest is the three
built-ins, and exact-name lookup of `Simple` — no earlier name prefixes
it — returns the Simple record itself. -/
theorem manifest_nodup_and_first_prefix_lookup_witness :
    appmanager_get_app (initManifest (fun _ => badHdr)) "Simple" = some simpleApp :=
  (manifest_nodup_and_first_prefix_lookup (fun _ => badHdr)).2
    [systemApp] simpleApp [nivzApp] (by decide) (by decide)

/-- C3 counterexample: relocation does not, in general, replace the
targeted word with `arena_base` plus its prior value.  Concretely: with
`arena_base = 4096`, `app_size = 4` and one relocation entry of value
`r = 0` (the 32-bit word stored at arena offset `app_size + 0 = 4`),
the word at byte offset 0 holds the prior value `v = 5`; after the
relocation loop the word holds `4096 + 4*(5/4) = 4100`, not
`arena_base + v = 4101` — the code divides the value by 4 and rebases
via word-pointer arithmetic, rounding `v` down to a multiple of 4. -/
theorem reloc_entry_not_rebased_by_value :
    rdW memV5 (4 / 4 + 0) = 0
    ∧ rdW memV5 0 = 5
    ∧ rdW (relocRun 4096 4 memV5 1) 0 ≠ 4096 + rdW memV5 0
    ∧ rdW (relocRun 4096 4 memV5 1) 0 = 4100 := by
  refine ⟨by decide, by decide, by decide, by decide⟩

/-- C3 (amended): for every relocation entry `r` (the `i`-th 32-bit
little-endian offset stored at arena offset `app_size + 4*i`, with
`app_size` word-aligned) and every prior 32-bit value `v` of the arena
word targeted by `r`, the relocation loop replaces that word with
`(arena_base + 4*(v/4)) mod 2^32` — the absolute address of arena word
`v/4`.  This equals `arena_base + v` exactly when `v` is a multiple of 4
and the sum does not overflow 32 bits. -/
theorem reloc_entry_rebased_rounded (base app_size i : Nat) (m : Mem) (r v : Nat)
    (hA : 4 ∣ app_size)
    (hr : r = rdW (relocRun base app_size m i) ((app_size + 4 * i) / 4))
    (hv : v = rdW (relocRun base app_size m i) (r / 4)) :
    rdW (relocRun base app_size m (i + 1)) (r / 4) = (base + 4 * (v / 4)) % 2 ^ 32 := by
  obtain ⟨c, rfl⟩ := hA
  have htbl : (4 * c + 4 * i) / 4 = 4 * c / 4 + i := by omega
  rw [htbl] at hr
  show rdW (relocStep base (4 * c) (relocRun base (4 * c) m i) i) (r / 4) = _
  rw [relocStep, ← hr, ← hv, rdW_wrW_same]
  omega

/-- Claim C3 witness: the amended relocation theorem instantiated on the
all-zero arena with `arena_base = 4096`, no code bytes and entry 0. -/
theorem reloc_entry_rebased_rounded_witness :
    rdW (relocRun 4096 0 (fun _ => 0) 1) (0 / 4) = (4096 + 4 * (0 / 4)) % 2 ^ 32 :=
  reloc_entry_rebased_rounded 4096 0 0 (fun _ => 0) 0 0 ⟨0, rfl⟩ (by decide) (by decide)

/-- C6: for a non-internal load, after the bss-zeroing step (performed
after the image copy and the GOT relocation loop), every arena byte at an
offset in `[app_size, virtual_size)` is zero.  The only assumption is
that `virtual_size` fits in its 32-bit header field. -/
theorem bss_region_zeroed (base : Nat) (hdr : ApplicationHeader) (img m0 : Mem) (j : Nat)
    (h32 : hdr.virtual_size < 2 ^ 32)
    (hj1 : hdr.app_size ≤ j) (hj2 : j < hdr.virtual_size) :
    afterBss base hdr img m0 j = 0 := by
  have hlen : u32 ((hdr.virtual_size : Int) - (hdr.app_size : Int))
      = hdr.virtual_size - hdr.app_size := by
    rw [u32]
    omega
  rw [afterBss, memset0, hlen, if_pos (by omega)]

/-- Claim C6 witness: the tiny header with `app_size = 4` and
`virtual_size = 8` loaded over a dirty arena leaves byte 5 zero. -/
theorem bss_region_zeroed_witness :
    afterBss 0 hdrC6 (fun _ => 7) (fun _ => 9) 5 = 0 :=
  bss_region_zeroed 0 hdrC6 (fun _ => 7) (fun _ => 9) 5 (by decide) (by decide) (by decide)

/-- C1 (code divergence): the loader performs no size check at all.  When
a looked-up non-internal record's header satisfies
`virtual_size + MAX_APP_STACK_SIZE*4 > ARENA_SIZE` — the condition under
which the claim requires the load to be abandoned — the supervisor loop
body still performs the full load and reaches the task spawn, and the
`uint32_t` heap-size subtraction wraps around to the huge value
`ARENA_SIZE + 2^32 - virtual_size - MAX_APP_STACK_SIZE*4`. -/
theorem appmanager_load_no_size_check (arenaSize stackWords base sym : Nat)
    (flash : Nat → ApplicationHeader) (img : Nat → Mem) (m0 : Mem)
    (manifest : List App) (name : String) (app : App)
    (hfind : appmanager_get_app manifest name = some app)
    (hext : app.is_internal = false)
    (hover : arenaSize < (flash app.slot_id).virtual_size + stackWords * 4)
    (hbound : (flash app.slot_id).virtual_size + stackWords * 4 ≤ arenaSize + 2 ^ 32) :
    supStep arenaSize stackWords base sym flash img m0 manifest name
      = SupOutcome.spawnedExternal app
          (loadExternal arenaSize stackWords base sym (flash app.slot_id) (img app.slot_id) m0)
    ∧ (loadExternal arenaSize stackWords base sym (flash app.slot_id)
        (img app.slot_id) m0).task_spawned = true
    ∧ (loadExternal arenaSize stackWords base sym (flash app.slot_id)
        (img app.slot_id) m0).heap_size
      = arenaSize + 2 ^ 32 - (flash app.slot_id).virtual_size - stackWords * 4 := by
  have hne : manifest ≠ [] := by
    intro h
    rw [h] at hfind
    exact Option.noConfusion hfind
  refine ⟨?_, rfl, ?_⟩
  · rw [supStep, if_neg hne, hfind]
    simp [hext]
  · show u32 ((arenaSize : Int) - ((flash app.slot_id).virtual_size : Int)
        - 4 * (stackWords : Int)) = _
    rw [u32]
    omega

/-- Claim C1 witness: arena of 1000 bytes, stack of 100 words, and a
slot-2 app whose `virtual_size` is 2000: the overflow condition
`2000 + 400 > 1000` holds, yet the supervisor spawns the task with a
wrapped heap size of `1000 + 2^32 - 2000 - 400` bytes. -/
theorem appmanager_load_no_size_check_witness :
    supStep 1000 100 0 0 (fun _ => hdrBig) (fun _ => (fun _ => 0)) (fun _ => 0)
        [faceBig] "Face"
      = SupOutcome.spawnedExternal faceBig
          (loadExternal 1000 100 0 0 hdrBig (fun _ => 0) (fun _ => 0))
    ∧ (loadExternal 1000 100 0 0 hdrBig (fun _ => 0) (fun _ => 0)).task_spawned = true
    ∧ (loadExternal 1000 100 0 0 hdrBig (fun _ => 0) (fun _ => 0)).heap_size
      = 1000 + 2 ^ 32 - 2000 - 100 * 4 :=
  appmanager_load_no_size_check 1000 100 0 0 (fun _ => hdrBig) (fun _ => (fun _ => 0)) (fun _ => 0)
    [faceBig] "Face" faceBig (by decide) (by decide) (by decide) (by decide)
